import Mathlib

/-!
Verification of the Paginated Search Walker (`ids_from_search` in
`twitter_tester.py`).

The walker is a Python generator:

    def ids_from_search(engine, limit, **search_params):
        response = engine.search(**search_params)
        i = 0
        while response.get('statuses', {}):
            current_min = None
            for status in response.get('statuses'):
                yield status.get('id')
                i = i + 1
                if i == limit:
                    return
                if not current_min or status.get('id') < current_min:
                    current_min = status.get('id')
            search_params['max_id'] = current_min - 1
            response = engine.search(**search_params)

The embedding below is a fuel-indexed function: `fuel` bounds the number of
search calls made after the initial one, and an explicit `Outcome` records
how the walk ended (`fuelOut` meaning the walk was still running when the
fuel ran out; it is an artifact of totalisation, not of the source).
Logging calls in the source are non-functional and are not modelled.
-/

namespace TwitterTester

/-- A value stored in the search-parameter mapping (Python dict values:
the walker itself only ever writes integers, the caller may store strings). -/
inductive Value where
  | int (n : Int)
  | str (s : String)
  deriving DecidableEq, Repr

/-- The search-parameter mapping `search_params`: an insertion-ordered
key/value association list, mirroring a Python dict. -/
abbrev Params := List (String × Value)

/-- The cursor key the walker writes (`search_params['max_id'] = ...`). -/
def maxIdKey : String := "max_id"

/-- Dict lookup. -/
def getParam : Params → String → Option Value
  | [], _ => none
  | (k, v) :: rest, key => if k = key then some v else getParam rest key

/-- Dict assignment `p[k] = v`: replaces the value of an existing key in
place, otherwise appends the new key at the end (Python insertion order). -/
def setParam : Params → String → Value → Params
  | [], k, v => [(k, v)]
  | (k', v') :: rest, k, v =>
      if k' = k then (k, v) :: rest else (k', v') :: setParam rest k v

/-- One result item of a search response (`status`); the walker reads only
its identifier `status.get('id')`. -/
structure Status where
  id : Int
  deriving DecidableEq, Repr

/-- A search response; the walker reads only `response.get('statuses')`
(`search_metadata` is only logged, which is non-functional). -/
structure Response where
  statuses : List Status
  deriving DecidableEq, Repr

/-- The injected search capability: from an engine state and the parameter
mapping, either a failure (propagated unmodified) or a response together
with the next engine state.  State `σ` lets stubs serve per-call pages. -/
abbrev Engine (σ ε : Type) := σ → Params → Except ε (Response × σ)

/-- `if not current_min or status.get('id') < current_min: current_min = id`.
Note the truthiness test: `current_min` equal to `0` counts as unset. -/
def trackMin (cm : Option Int) (i : Int) : Option Int :=
  match cm with
  | none => some i
  | some v => if v == 0 || i < v then some i else some v

/-- How a walk ended. `limitHit` is the `return` at `i == limit`;
`emptyPage` is the `while` condition failing; `failed e` is an engine
failure propagating; `crashed` is the `TypeError` Python would raise at
`current_min - 1` if `current_min` were still `None` (provably
unreachable); `fuelOut` is the totalisation artifact. -/
inductive Outcome (ε : Type) where
  | limitHit
  | emptyPage
  | failed (e : ε)
  | crashed
  | fuelOut
  deriving DecidableEq, Repr

/-- The observable record of one walk: the identifiers yielded in order,
the parameter mapping passed to each search call in order, how the walk
ended, and the final parameter mapping and engine state. -/
structure WalkResult (σ ε : Type) where
  ids : List Int
  calls : List Params
  outcome : Outcome ε
  finalParams : Params
  finalState : σ
  deriving DecidableEq, Repr

/-- Result of the inner `for status in response.get('statuses')` loop:
the identifiers yielded from this page, the running count `i` afterwards,
the tracked `current_min`, and whether the `i == limit` return fired. -/
structure PageResult where
  yielded : List Int
  iOut : Nat
  cm : Option Int
  hit : Bool
  deriving DecidableEq, Repr

/-- The inner per-item loop: yield the id, increment `i`, return when
`i == limit`, otherwise update `current_min` via `trackMin`. -/
def pageStep (limit : Nat) : List Status → Nat → Option Int → PageResult
  | [], i, cm => ⟨[], i, cm, false⟩
  | st :: rest, i, cm =>
      if i + 1 = limit then ⟨[st.id], i + 1, cm, true⟩
      else
        let r := pageStep limit rest (i + 1) (trackMin cm st.id)
        ⟨st.id :: r.yielded, r.iOut, r.cm, r.hit⟩

/-- The outer `while` loop, entered with the statuses of the response just
received.  `current_min` is re-initialised to `None` for every page; after
a page completes without hitting the limit the walker sets
`search_params['max_id'] = current_min - 1` and calls the engine again. -/
def walkAux (engine : Engine σ ε) (limit : Nat) :
    Nat → List Status → Params → σ → Nat → WalkResult σ ε
  | _, [], params, s, _ => ⟨[], [], .emptyPage, params, s⟩
  | fuel, st :: rest, params, s, i =>
      let pr := pageStep limit (st :: rest) i none
      if pr.hit then ⟨pr.yielded, [], .limitHit, params, s⟩
      else
        match pr.cm with
        | none => ⟨pr.yielded, [], .crashed, params, s⟩
        | some m =>
            match fuel with
            | 0 => ⟨pr.yielded, [], .fuelOut, setParam params maxIdKey (.int (m - 1)), s⟩
            | fuel' + 1 =>
                match engine s (setParam params maxIdKey (.int (m - 1))) with
                | .error e =>
                    ⟨pr.yielded, [setParam params maxIdKey (.int (m - 1))], .failed e,
                      setParam params maxIdKey (.int (m - 1)), s⟩
                | .ok (resp, s') =>
                    let r := walkAux engine limit fuel' resp.statuses
                      (setParam params maxIdKey (.int (m - 1))) s' pr.iOut
                    ⟨pr.yielded ++ r.ids, setParam params maxIdKey (.int (m - 1)) :: r.calls,
                      r.outcome, r.finalParams, r.finalState⟩

/-- `ids_from_search`: make the initial search call, then run the outer
loop.  `limit = 0` means unlimited (the Python `i == limit` check can then
never fire since `i` counts up from 1). -/
def ids_from_search (engine : Engine σ ε) (limit : Nat) (params : Params)
    (s : σ) (fuel : Nat) : WalkResult σ ε :=
  match engine s params with
  | .error e => ⟨[], [params], .failed e, params, s⟩
  | .ok (resp, s') =>
      let r := walkAux engine limit fuel resp.statuses params s' 0
      ⟨r.ids, params :: r.calls, r.outcome, r.finalParams, r.finalState⟩

/-- A deterministic stub search capability: the engine state is the call
index, call `k` returns the statuses `R k`. -/
def stubEngine (R : Nat → List Status) : Engine Nat Unit :=
  fun k _ => .ok (⟨R k⟩, k + 1)

/-- A replay stub serving a fixed list of pages, then empty pages. -/
def replayEngine (pages : List (List Status)) : Engine Nat Unit :=
  stubEngine (fun k => (pages.getD k []))

/-- A stub that always answers with the same single status: the
`limit = 0` walk against it never finishes, whatever the fuel. -/
def constEngine : Engine Unit Unit := fun _ _ => .ok (⟨[⟨1⟩]⟩, ())

/-- A stub whose every call fails. -/
def failEngine : Engine Unit String := fun _ _ => .error "rate limited"

/-- A caller-style initial parameter mapping (a query, a result type and a
page size, as `main` builds it). -/
def initParams : Params :=
  [("q", .str "test"), ("result_type", .str "recent"), ("count", .int 100)]

/-- Pages of sizes 3, 2, 0 (the `limit == 0` spec scenario). -/
def c4pages : List (List Status) := [[⟨100⟩, ⟨98⟩, ⟨95⟩], [⟨94⟩, ⟨90⟩], []]

/-- The `limit == 0`, pages [3, 2, 0] walk. -/
def c4run : WalkResult Nat Unit := ids_from_search (replayEngine c4pages) 0 initParams 0 10

/-- Two pages of size 3. -/
def c2pages : List (List Status) := [[⟨100⟩, ⟨98⟩, ⟨95⟩], [⟨94⟩, ⟨90⟩, ⟨88⟩]]

/-- The `limit == 4`, pages [3, 3] walk. -/
def c2run : WalkResult Nat Unit := ids_from_search (replayEngine c2pages) 4 initParams 0 10

/-- The `limit == 3`, pages [3, 3] walk. -/
def c5run : WalkResult Nat Unit := ids_from_search (replayEngine c2pages) 3 initParams 0 10

/-- A first page whose minimum identifier is the literal `0`. -/
def zeroPages : List (List Status) := [[⟨0⟩, ⟨5⟩], []]

/-- The `limit == 0` walk over a page with identifiers [0, 5]. -/
def zeroRun : WalkResult Nat Unit := ids_from_search (replayEngine zeroPages) 0 initParams 0 5

/-- The page [50, 30, 40] of the cursor-correctness scenario. -/
def c1pages : List (List Status) := [[⟨50⟩, ⟨30⟩, ⟨40⟩], []]

/-- The `limit == 0` walk over the page [50, 30, 40]. -/
def c1run : WalkResult Nat Unit := ids_from_search (replayEngine c1pages) 0 initParams 0 5

/-- A response schedule: one page of one status, then exhaustion. -/
def stubR1 : Nat → List Status := fun k => if k = 0 then [⟨7⟩] else []

/-- The same response schedule as `stubR1`, written differently. -/
def stubR2 : Nat → List Status := fun k =>
  match k with
  | 0 => [⟨7⟩]
  | _ + 1 => []

end TwitterTester

namespace TwitterTester

/-! ### Lemmas about the parameter mapping -/

theorem getParam_setParam_self (p : Params) (k : String) (v : Value) :
    getParam (setParam p k v) k = some v := by
  induction p with
  | nil => simp [setParam, getParam]
  | cons kv rest ih =>
      obtain ⟨k', v'⟩ := kv
      by_cases h : k' = k
      · simp [setParam, h, getParam]
      · simp [setParam, h, getParam, ih]

theorem getParam_setParam_ne (p : Params) (k k' : String) (v : Value)
    (h : k' ≠ k) : getParam (setParam p k v) k' = getParam p k' := by
  induction p with
  | nil => simp [setParam, getParam, Ne.symm h]
  | cons kv rest ih =>
      obtain ⟨k₀, v₀⟩ := kv
      by_cases h₀ : k₀ = k
      · subst h₀
        simp [setParam, getParam, Ne.symm h]
      · by_cases h₁ : k₀ = k'
        · subst h₁
          simp [setParam, h₀, getParam]
        · simp [setParam, h₀, getParam, h₁, ih]

/-! ### Lemmas about the inner per-item loop -/

theorem pageStep_nil (limit i : Nat) (cm : Option Int) :
    pageStep limit [] i cm = ⟨[], i, cm, false⟩ := rfl

theorem pageStep_iOut (limit : Nat) :
    ∀ (l : List Status) (i : Nat) (cm : Option Int),
      (pageStep limit l i cm).iOut = i + (pageStep limit l i cm).yielded.length
  | [], i, cm => by simp [pageStep]
  | st :: rest, i, cm => by
      by_cases h : i + 1 = limit
      · simp [pageStep, h]
      · have ih := pageStep_iOut limit rest (i + 1) (trackMin cm st.id)
        simp [pageStep, h, ih]
        omega

theorem pageStep_hit_iOut (limit : Nat) :
    ∀ (l : List Status) (i : Nat) (cm : Option Int),
      (pageStep limit l i cm).hit = true → (pageStep limit l i cm).iOut = limit
  | [], i, cm => by simp [pageStep]
  | st :: rest, i, cm => by
      by_cases h : i + 1 = limit
      · simp [pageStep, h]
      · have ih := pageStep_hit_iOut limit rest (i + 1) (trackMin cm st.id)
        simp [pageStep, h]
        exact ih

theorem pageStep_nohit (limit : Nat) :
    ∀ (l : List Status) (i : Nat) (cm : Option Int),
      (pageStep limit l i cm).hit = false →
      pageStep limit l i cm =
        ⟨l.map Status.id, i + l.length,
          List.foldl (fun c st => trackMin c st.id) cm l, false⟩
  | [], i, cm => by simp [pageStep]
  | st :: rest, i, cm => by
      by_cases h : i + 1 = limit
      · simp [pageStep, h]
      · intro hf
        have hf' : (pageStep limit rest (i + 1) (trackMin cm st.id)).hit = false := by
          simpa [pageStep, h] using hf
        have ih := pageStep_nohit limit rest (i + 1) (trackMin cm st.id) hf'
        simp [pageStep, h, ih]
        omega

theorem pageStep_nohit_no_limit (limit : Nat) :
    ∀ (l : List Status) (i : Nat) (cm : Option Int),
      (pageStep limit l i cm).hit = false →
      ∀ k, i < k → k ≤ i + l.length → k ≠ limit
  | [], i, cm => by
      intro _ k hk hk'
      simp at hk'
      omega
  | st :: rest, i, cm => by
      intro hf k hk hk'
      by_cases h : i + 1 = limit
      · simp [pageStep, h] at hf
      · have hf' : (pageStep limit rest (i + 1) (trackMin cm st.id)).hit = false := by
          simpa [pageStep, h] using hf
        by_cases hk1 : k = i + 1
        · omega
        · exact pageStep_nohit_no_limit limit rest (i + 1) (trackMin cm st.id) hf' k
            (by omega) (by simp at hk' ⊢; omega)

theorem pageStep_nohit_lt (limit : Nat) (l : List Status) (i : Nat) (cm : Option Int)
    (hf : (pageStep limit l i cm).hit = false) (hi : i < limit) :
    (pageStep limit l i cm).iOut < limit := by
  have h := pageStep_nohit limit l i cm hf
  have hno := pageStep_nohit_no_limit limit l i cm hf
  rw [h]
  show i + l.length < limit
  by_contra hle
  exact hno limit hi (by omega) rfl

/-! ### Lemmas about the minimum tracking -/

theorem trackMin_none (i : Int) : trackMin none i = some i := rfl

theorem trackMin_some_zero (i : Int) : trackMin (some 0) i = some i := by
  simp [trackMin]

theorem trackMin_nonzero (v i : Int) (hv : v ≠ 0) :
    trackMin (some v) i = some (min v i) := by
  rcases le_or_lt v i with h | h
  · simp [trackMin, hv, min_eq_left h, not_lt.mpr h]
  · simp [trackMin, hv, h, min_eq_right (le_of_lt h)]

/-- When no identifier is `0`, the truthiness test never misfires and the
tracked value is the genuine running minimum. -/
theorem foldl_trackMin_nonzero :
    ∀ (l : List Int) (v : Int), v ≠ 0 → (∀ x ∈ l, x ≠ 0) →
      List.foldl trackMin (some v) l = some (List.foldl min v l)
  | [], v, _, _ => by simp
  | x :: l, v, hv, hl => by
      have hx : x ≠ 0 := hl x (by simp)
      have hmin : min v x ≠ 0 := by
        rcases min_choice v x with h | h <;> rw [h] <;> assumption
      have ih := foldl_trackMin_nonzero l (min v x) hmin
        (fun y hy => hl y (by simp [hy]))
      simp [trackMin_nonzero v x hv, ih]

theorem foldl_min_mem : ∀ (l : List Int) (v : Int), List.foldl min v l ∈ v :: l
  | [], v => by simp
  | x :: l, v => by
      have ih := foldl_min_mem l (min v x)
      rw [List.foldl_cons]
      rcases List.mem_cons.mp ih with h | h
      · rw [h]
        rcases min_choice v x with hm | hm <;> rw [hm] <;> simp
      · simp [h]

theorem foldl_min_le : ∀ (l : List Int) (v x : Int), x ∈ v :: l → List.foldl min v l ≤ x
  | [], v, x => by
      intro hx
      simp at hx
      simp [hx]
  | y :: l, v, x => by
      intro hx
      have hle : List.foldl min v (y :: l) ≤ min v y :=
        foldl_min_le l (min v y) (min v y) (by simp)
      rcases List.mem_cons.mp hx with h | h
      · exact le_trans hle (by rw [h]; exact min_le_left v y)
      · rcases List.mem_cons.mp h with h' | h'
        · exact le_trans hle (by rw [h']; exact min_le_right v y)
        · exact foldl_min_le l (min v y) x (by simp [h'])

/-! ### Unfolding lemmas for the outer loop -/

theorem walkAux_nil (engine : Engine σ ε) (limit fuel : Nat) (params : Params)
    (s : σ) (i : Nat) :
    walkAux engine limit fuel [] params s i = ⟨[], [], .emptyPage, params, s⟩ := by
  cases fuel <;> rfl

theorem walkAux_hit (engine : Engine σ ε) (limit fuel : Nat) (st : Status)
    (rest : List Status) (params : Params) (s : σ) (i : Nat)
    (h : (pageStep limit (st :: rest) i none).hit = true) :
    walkAux engine limit fuel (st :: rest) params s i =
      ⟨(pageStep limit (st :: rest) i none).yielded, [], .limitHit, params, s⟩ := by
  cases fuel <;> simp [walkAux, h]

theorem walkAux_crash (engine : Engine σ ε) (limit fuel : Nat) (st : Status)
    (rest : List Status) (params : Params) (s : σ) (i : Nat)
    (h : (pageStep limit (st :: rest) i none).hit = false)
    (hcm : (pageStep limit (st :: rest) i none).cm = none) :
    walkAux engine limit fuel (st :: rest) params s i =
      ⟨(pageStep limit (st :: rest) i none).yielded, [], .crashed, params, s⟩ := by
  cases fuel <;> simp [walkAux, h, hcm]

theorem walkAux_fuel0 (engine : Engine σ ε) (limit : Nat) (st : Status)
    (rest : List Status) (params : Params) (s : σ) (i : Nat) (m : Int)
    (h : (pageStep limit (st :: rest) i none).hit = false)
    (hcm : (pageStep limit (st :: rest) i none).cm = some m) :
    walkAux engine limit 0 (st :: rest) params s i =
      ⟨(pageStep limit (st :: rest) i none).yielded, [], .fuelOut,
        setParam params maxIdKey (.int (m - 1)), s⟩ := by
  simp [walkAux, h, hcm]

theorem walkAux_err (engine : Engine σ ε) (limit fuel' : Nat) (st : Status)
    (rest : List Status) (params : Params) (s : σ) (i : Nat) (m : Int) (e : ε)
    (h : (pageStep limit (st :: rest) i none).hit = false)
    (hcm : (pageStep limit (st :: rest) i none).cm = some m)
    (he : engine s (setParam params maxIdKey (.int (m - 1))) = .error e) :
    walkAux engine limit (fuel' + 1) (st :: rest) params s i =
      ⟨(pageStep limit (st :: rest) i none).yielded,
        [setParam params maxIdKey (.int (m - 1))], .failed e,
        setParam params maxIdKey (.int (m - 1)), s⟩ := by
  simp [walkAux, h, hcm, he]

theorem walkAux_ok (engine : Engine σ ε) (limit fuel' : Nat) (st : Status)
    (rest : List Status) (params : Params) (s : σ) (i : Nat) (m : Int)
    (resp : Response) (s' : σ)
    (h : (pageStep limit (st :: rest) i none).hit = false)
    (hcm : (pageStep limit (st :: rest) i none).cm = some m)
    (he : engine s (setParam params maxIdKey (.int (m - 1))) = .ok (resp, s')) :
    walkAux engine limit (fuel' + 1) (st :: rest) params s i =
      (let r := walkAux engine limit fuel' resp.statuses
          (setParam params maxIdKey (.int (m - 1))) s' (pageStep limit (st :: rest) i none).iOut
       ⟨(pageStep limit (st :: rest) i none).yielded ++ r.ids,
         setParam params maxIdKey (.int (m - 1)) :: r.calls,
         r.outcome, r.finalParams, r.finalState⟩) := by
  simp [walkAux, h, hcm, he]

/-! ### Structural facts about the walk -/

/-- With `limit > 0`, the outer loop entered at running count `i < limit`
yields at most `limit - i` further identifiers. -/
theorem walkAux_ids_le (engine : Engine σ ε) (limit : Nat) :
    ∀ (fuel : Nat) (l : List Status) (params : Params) (s : σ) (i : Nat),
      i < limit → (walkAux engine limit fuel l params s i).ids.length ≤ limit - i := by
  intro fuel
  induction fuel with
  | zero =>
      intro l params s i hi
      cases l with
      | nil => simp [walkAux_nil]
      | cons st rest =>
          have hio := pageStep_iOut limit (st :: rest) i none
          cases hhit : (pageStep limit (st :: rest) i none).hit
          · have hlt := pageStep_nohit_lt limit (st :: rest) i none hhit hi
            cases hcm : (pageStep limit (st :: rest) i none).cm with
            | none => rw [walkAux_crash engine limit 0 st rest params s i hhit hcm]; simp; omega
            | some m => rw [walkAux_fuel0 engine limit st rest params s i m hhit hcm]; simp; omega
          · have hlim := pageStep_hit_iOut limit (st :: rest) i none hhit
            rw [walkAux_hit engine limit 0 st rest params s i hhit]
            simp
            omega
  | succ fuel ih =>
      intro l params s i hi
      cases l with
      | nil => simp [walkAux_nil]
      | cons st rest =>
          have hio := pageStep_iOut limit (st :: rest) i none
          cases hhit : (pageStep limit (st :: rest) i none).hit
          · have hlt := pageStep_nohit_lt limit (st :: rest) i none hhit hi
            cases hcm : (pageStep limit (st :: rest) i none).cm with
            | none =>
                rw [walkAux_crash engine limit (fuel + 1) st rest params s i hhit hcm]
                simp
                omega
            | some m =>
                cases he : engine s (setParam params maxIdKey (.int (m - 1))) with
                | error e =>
                    rw [walkAux_err engine limit fuel st rest params s i m e hhit hcm he]
                    simp
                    omega
                | ok pr' =>
                    obtain ⟨resp, s'⟩ := pr'
                    rw [walkAux_ok engine limit fuel st rest params s i m resp s' hhit hcm he]
                    have hrec := ih resp.statuses (setParam params maxIdKey (.int (m - 1))) s'
                      (pageStep limit (st :: rest) i none).iOut hlt
                    simp
                    omega
          · have hlim := pageStep_hit_iOut limit (st :: rest) i none hhit
            rw [walkAux_hit engine limit (fuel + 1) st rest params s i hhit]
            simp
            omega

/-- If the limit fires inside a page, the outer loop makes no further
search call (the `return` precedes the next `engine.search`). -/
theorem walkAux_hit_no_call (engine : Engine σ ε) (limit fuel : Nat)
    (l : List Status) (params : Params) (s : σ) (i : Nat)
    (h : (pageStep limit l i none).hit = true) :
    (walkAux engine limit fuel l params s i).calls = [] := by
  cases l with
  | nil => simp [pageStep] at h
  | cons st rest => rw [walkAux_hit engine limit fuel st rest params s i h]

/-- After a page completes without hitting the limit, the next search call
(the head of the calls made from here on) carries `max_id = current_min - 1`,
whether that call succeeds or fails. -/
theorem walkAux_next_call (engine : Engine σ ε) (limit fuel : Nat) (st : Status)
    (rest : List Status) (params : Params) (s : σ) (i : Nat) (m : Int)
    (h : (pageStep limit (st :: rest) i none).hit = false)
    (hcm : (pageStep limit (st :: rest) i none).cm = some m) :
    (walkAux engine limit (fuel + 1) (st :: rest) params s i).calls.head? =
      some (setParam params maxIdKey (.int (m - 1))) := by
  cases he : engine s (setParam params maxIdKey (.int (m - 1))) with
  | error e =>
      rw [walkAux_err engine limit fuel st rest params s i m e h hcm he]
      rfl
  | ok pr' =>
      obtain ⟨resp, s'⟩ := pr'
      rw [walkAux_ok engine limit fuel st rest params s i m resp s' h hcm he]
      simp

/-- The walker only ever writes the `max_id` key: every call's parameter
mapping, and the final mapping, agree with the entry mapping on every
other key. -/
theorem walkAux_frame (engine : Engine σ ε) (limit : Nat) (key : String)
    (hk : key ≠ maxIdKey) :
    ∀ (fuel : Nat) (l : List Status) (params : Params) (s : σ) (i : Nat),
      (∀ p ∈ (walkAux engine limit fuel l params s i).calls,
          getParam p key = getParam params key) ∧
      getParam (walkAux engine limit fuel l params s i).finalParams key =
        getParam params key := by
  intro fuel
  induction fuel with
  | zero =>
      intro l params s i
      cases l with
      | nil => simp [walkAux_nil]
      | cons st rest =>
          cases hhit : (pageStep limit (st :: rest) i none).hit
          · cases hcm : (pageStep limit (st :: rest) i none).cm with
            | none => rw [walkAux_crash engine limit 0 st rest params s i hhit hcm]; simp
            | some m =>
                rw [walkAux_fuel0 engine limit st rest params s i m hhit hcm]
                simpa using getParam_setParam_ne params maxIdKey key (.int (m - 1)) hk
          · rw [walkAux_hit engine limit 0 st rest params s i hhit]; simp
  | succ fuel ih =>
      intro l params s i
      cases l with
      | nil => simp [walkAux_nil]
      | cons st rest =>
          cases hhit : (pageStep limit (st :: rest) i none).hit
          · cases hcm : (pageStep limit (st :: rest) i none).cm with
            | none => rw [walkAux_crash engine limit (fuel + 1) st rest params s i hhit hcm]; simp
            | some m =>
                have hset := getParam_setParam_ne params maxIdKey key (.int (m - 1)) hk
                cases he : engine s (setParam params maxIdKey (.int (m - 1))) with
                | error e =>
                    rw [walkAux_err engine limit fuel st rest params s i m e hhit hcm he]
                    simpa using hset
                | ok pr' =>
                    obtain ⟨resp, s'⟩ := pr'
                    rw [walkAux_ok engine limit fuel st rest params s i m resp s' hhit hcm he]
                    have hrec := ih resp.statuses (setParam params maxIdKey (.int (m - 1))) s'
                      (pageStep limit (st :: rest) i none).iOut
                    simp only [List.mem_cons]
                    constructor
                    · intro p hp
                      rcases hp with hp | hp
                      · rw [hp]; exact hset
                      · exact (hrec.1 p hp).trans hset
                    · exact hrec.2.trans hset
          · rw [walkAux_hit engine limit (fuel + 1) st rest params s i hhit]; simp

/-- With a positive limit, `limit` units of fuel are always enough: the
walk cannot still be running (every completed page yields at least one
identifier, so the running count reaches the limit first). -/
theorem walkAux_fuelOut_ne (engine : Engine σ ε) (limit : Nat) :
    ∀ (fuel : Nat) (l : List Status) (params : Params) (s : σ) (i : Nat),
      i < limit → limit ≤ fuel + i →
      (walkAux engine limit fuel l params s i).outcome ≠ .fuelOut := by
  intro fuel
  induction fuel with
  | zero =>
      intro l params s i hi hle
      exact absurd hi (by omega)
  | succ fuel ih =>
      intro l params s i hi hle
      cases l with
      | nil => simp [walkAux_nil]
      | cons st rest =>
          cases hhit : (pageStep limit (st :: rest) i none).hit
          · have hlt := pageStep_nohit_lt limit (st :: rest) i none hhit hi
            have hno := pageStep_nohit limit (st :: rest) i none hhit
            have hiOut : (pageStep limit (st :: rest) i none).iOut = i + (st :: rest).length := by
              rw [hno]
            cases hcm : (pageStep limit (st :: rest) i none).cm with
            | none =>
                rw [walkAux_crash engine limit (fuel + 1) st rest params s i hhit hcm]
                simp
            | some m =>
                cases he : engine s (setParam params maxIdKey (.int (m - 1))) with
                | error e =>
                    rw [walkAux_err engine limit fuel st rest params s i m e hhit hcm he]
                    simp
                | ok pr' =>
                    obtain ⟨resp, s'⟩ := pr'
                    rw [walkAux_ok engine limit fuel st rest params s i m resp s' hhit hcm he]
                    have hrec := ih resp.statuses (setParam params maxIdKey (.int (m - 1))) s'
                      (pageStep limit (st :: rest) i none).iOut hlt
                      (by simp at hiOut ⊢; omega)
                    simpa using hrec
          · rw [walkAux_hit engine limit (fuel + 1) st rest params s i hhit]
            simp

/-- Against the replay stub, if the page served at call index `j + d` is
empty then a walk currently at engine state `j` finishes within any fuel
budget exceeding `d`. -/
theorem walkAux_replay_empty (pages : List (List Status)) (limit : Nat) :
    ∀ (d fuel : Nat) (l : List Status) (params : Params) (j i : Nat),
      d < fuel → pages.getD (j + d) [] = [] →
      (walkAux (replayEngine pages) limit fuel l params j i).outcome ≠ .fuelOut := by
  intro d
  induction d with
  | zero =>
      intro fuel l params j i hd hpg
      obtain ⟨fuel', rfl⟩ : ∃ f, fuel = f + 1 := ⟨fuel - 1, by omega⟩
      have hpg0 : pages.getD j [] = [] := by simpa using hpg
      cases l with
      | nil => simp [walkAux_nil]
      | cons st rest =>
          cases hhit : (pageStep limit (st :: rest) i none).hit
          · cases hcm : (pageStep limit (st :: rest) i none).cm with
            | none =>
                rw [walkAux_crash (replayEngine pages) limit (fuel' + 1) st rest params j i
                  hhit hcm]
                simp
            | some m =>
                have he : replayEngine pages j (setParam params maxIdKey (.int (m - 1))) =
                    .ok (⟨[]⟩, j + 1) := by
                  have hrepl : replayEngine pages j (setParam params maxIdKey (.int (m - 1))) =
                      .ok (⟨pages.getD j []⟩, j + 1) := rfl
                  rw [hrepl, hpg0]
                rw [walkAux_ok (replayEngine pages) limit fuel' st rest params j i m
                  ⟨[]⟩ (j + 1) hhit hcm he]
                simp [walkAux_nil]
          · rw [walkAux_hit (replayEngine pages) limit (fuel' + 1) st rest params j i hhit]
            simp
  | succ d ihd =>
      intro fuel l params j i hd hpg
      obtain ⟨fuel', rfl⟩ : ∃ f, fuel = f + 1 := ⟨fuel - 1, by omega⟩
      cases l with
      | nil => simp [walkAux_nil]
      | cons st rest =>
          cases hhit : (pageStep limit (st :: rest) i none).hit
          · cases hcm : (pageStep limit (st :: rest) i none).cm with
            | none =>
                rw [walkAux_crash (replayEngine pages) limit (fuel' + 1) st rest params j i
                  hhit hcm]
                simp
            | some m =>
                have he : replayEngine pages j (setParam params maxIdKey (.int (m - 1))) =
                    .ok (⟨pages.getD j []⟩, j + 1) := rfl
                rw [walkAux_ok (replayEngine pages) limit fuel' st rest params j i m
                  ⟨pages.getD j []⟩ (j + 1) hhit hcm he]
                have hpg' : pages.getD ((j + 1) + d) [] = [] := by
                  have harith : (j + 1) + d = j + (d + 1) := by omega
                  rw [harith]
                  exact hpg
                have hrec := ihd fuel' (pages.getD j [])
                  (setParam params maxIdKey (.int (m - 1))) (j + 1)
                  (pageStep limit (st :: rest) i none).iOut (by omega) hpg'
                simpa using hrec
          · rw [walkAux_hit (replayEngine pages) limit (fuel' + 1) st rest params j i hhit]
            simp

theorem walkAux_const_fuelOut :
    ∀ (fuel : Nat) (params : Params) (i : Nat),
      (walkAux constEngine 0 fuel [⟨1⟩] params () i).outcome = .fuelOut := by
  intro fuel
  induction fuel with
  | zero =>
      intro params i
      have hhit : (pageStep 0 [⟨1⟩] i none).hit = false := by simp [pageStep]
      have hcm : (pageStep 0 [⟨1⟩] i none).cm = some 1 := by simp [pageStep, trackMin]
      rw [walkAux_fuel0 constEngine 0 ⟨1⟩ [] params () i 1 hhit hcm]
  | succ fuel ih =>
      intro params i
      have hhit : (pageStep 0 [⟨1⟩] i none).hit = false := by simp [pageStep]
      have hcm : (pageStep 0 [⟨1⟩] i none).cm = some 1 := by simp [pageStep, trackMin]
      have he : constEngine () (setParam params maxIdKey (.int (1 - 1))) =
          .ok (⟨[⟨1⟩]⟩, ()) := rfl
      rw [walkAux_ok constEngine 0 fuel ⟨1⟩ [] params () i 1 ⟨[⟨1⟩]⟩ () hhit hcm he]
      exact ih _ _

/-- Two engines that agree on every state and parameter mapping drive the
walk to identical results: the walker has no other source of input. -/
theorem walkAux_congr (e1 e2 : Engine σ ε) (limit : Nat)
    (h : ∀ s p, e1 s p = e2 s p) :
    ∀ (fuel : Nat) (l : List Status) (params : Params) (s : σ) (i : Nat),
      walkAux e1 limit fuel l params s i = walkAux e2 limit fuel l params s i := by
  intro fuel
  induction fuel with
  | zero =>
      intro l params s i
      cases l with
      | nil => rw [walkAux_nil, walkAux_nil]
      | cons st rest =>
          cases hhit : (pageStep limit (st :: rest) i none).hit
          · cases hcm : (pageStep limit (st :: rest) i none).cm with
            | none =>
                rw [walkAux_crash e1 limit 0 st rest params s i hhit hcm,
                  walkAux_crash e2 limit 0 st rest params s i hhit hcm]
            | some m =>
                rw [walkAux_fuel0 e1 limit st rest params s i m hhit hcm,
                  walkAux_fuel0 e2 limit st rest params s i m hhit hcm]
          · rw [walkAux_hit e1 limit 0 st rest params s i hhit,
              walkAux_hit e2 limit 0 st rest params s i hhit]
  | succ fuel ih =>
      intro l params s i
      cases l with
      | nil => rw [walkAux_nil, walkAux_nil]
      | cons st rest =>
          cases hhit : (pageStep limit (st :: rest) i none).hit
          · cases hcm : (pageStep limit (st :: rest) i none).cm with
            | none =>
                rw [walkAux_crash e1 limit (fuel + 1) st rest params s i hhit hcm,
                  walkAux_crash e2 limit (fuel + 1) st rest params s i hhit hcm]
            | some m =>
                cases he : e2 s (setParam params maxIdKey (.int (m - 1))) with
                | error e =>
                    have he1 : e1 s (setParam params maxIdKey (.int (m - 1))) = .error e :=
                      (h s (setParam params maxIdKey (.int (m - 1)))).trans he
                    rw [walkAux_err e1 limit fuel st rest params s i m e hhit hcm he1,
                      walkAux_err e2 limit fuel st rest params s i m e hhit hcm he]
                | ok pr' =>
                    obtain ⟨resp, s'⟩ := pr'
                    have he1 : e1 s (setParam params maxIdKey (.int (m - 1))) =
                        .ok (resp, s') :=
                      (h s (setParam params maxIdKey (.int (m - 1)))).trans he
                    rw [walkAux_ok e1 limit fuel st rest params s i m resp s' hhit hcm he1,
                      walkAux_ok e2 limit fuel st rest params s i m resp s' hhit hcm he]
                    simp only [ih]
          · rw [walkAux_hit e1 limit (fuel + 1) st rest params s i hhit,
              walkAux_hit e2 limit (fuel + 1) st rest params s i hhit]

/-! ### Claim theorems -/

/-- C4: for `limit == 0` and pages of sizes [3, 2, 0], the walker yields
exactly the 5 identifiers in the order received across pages, and performs
exactly 3 search calls; the third (empty) response terminates the walk
(outcome `emptyPage`, with fuel to spare, so no 4th call happens). -/
theorem c4_pages_3_2_0 :
    c4run.ids = [100, 98, 95, 94, 90] ∧ c4run.calls.length = 3 ∧
      c4run.outcome = .emptyPage := by
  decide

/-- C9: the truthiness test means an identifier equal to 0 never persists
as the tracked minimum once another item follows: min-tracking restarted
at a tracked 0 behaves exactly like min-tracking started fresh on the
later items; concretely, the page [0, 5] makes the next call's `max_id`
equal to 4, not -1. -/
theorem c9_zero_truthiness :
    (∀ (y : Int) (l : List Int),
        List.foldl trackMin (some 0) (y :: l) = List.foldl trackMin none (y :: l)) ∧
    getParam (zeroRun.calls.getD 1 []) maxIdKey = some (Value.int 4) ∧
    zeroRun.ids = [0, 5] := by
  refine ⟨?_, by decide, by decide⟩
  intro y l
  rw [List.foldl_cons, List.foldl_cons, trackMin_some_zero, trackMin_none]

/-- C1 (counterexample): on the page [0, 5] (`limit == 0`), the minimum
identifier of the just-completed page is 0, so the claim says the next
call's `max_id` is `0 - 1 = -1`; the walker actually sends `max_id = 4`. -/
theorem c1_counterexample :
    zeroRun.ids = [0, 5] ∧ zeroRun.calls.length = 2 ∧
    getParam (zeroRun.calls.getD 1 []) maxIdKey = some (Value.int 4) ∧
    getParam (zeroRun.calls.getD 1 []) maxIdKey ≠ some (Value.int (0 - 1)) := by
  decide

/-- C1 (amended): for every walk in which a page containing no identifier
equal to 0 is exhausted without the running count reaching the limit,
the walker's next search call carries `max_id` equal to the minimum
identifier of the just-completed page minus 1 (per-page minimum,
order-independent: it is the element of the page that is a lower bound
of the whole page). -/
theorem c1_cursor_per_page_min (engine : Engine σ ε) (limit fuel : Nat)
    (st : Status) (rest : List Status) (params : Params) (s : σ) (i : Nat)
    (hhit : (pageStep limit (st :: rest) i none).hit = false)
    (hnz : ∀ x ∈ (st :: rest).map Status.id, x ≠ 0) :
    ∃ m : Int,
      m ∈ (st :: rest).map Status.id ∧
      (∀ x ∈ (st :: rest).map Status.id, m ≤ x) ∧
      ∃ p, (walkAux engine limit (fuel + 1) (st :: rest) params s i).calls.head? = some p ∧
        getParam p maxIdKey = some (Value.int (m - 1)) := by
  have hno := pageStep_nohit limit (st :: rest) i none hhit
  have hcm0 : (pageStep limit (st :: rest) i none).cm =
      List.foldl (fun c stx => trackMin c stx.id) none (st :: rest) := by
    rw [hno]
  have hmap : List.foldl (fun c stx => trackMin c stx.id) none (st :: rest) =
      List.foldl trackMin none ((st :: rest).map Status.id) := by
    rw [List.foldl_map]
  have hfold : List.foldl trackMin none ((st :: rest).map Status.id) =
      List.foldl trackMin (some st.id) (rest.map Status.id) := by
    rw [List.map_cons, List.foldl_cons, trackMin_none]
  have hstnz : st.id ≠ 0 := hnz st.id (by simp)
  have hrestnz : ∀ x ∈ rest.map Status.id, x ≠ 0 :=
    fun x hx => hnz x (by simp at hx ⊢; tauto)
  have hmin := foldl_trackMin_nonzero (rest.map Status.id) st.id hstnz hrestnz
  refine ⟨List.foldl min st.id (rest.map Status.id), ?_, ?_, ?_⟩
  · have hm := foldl_min_mem (rest.map Status.id) st.id
    simpa using hm
  · intro x hx
    apply foldl_min_le (rest.map Status.id) st.id x
    simpa using hx
  · refine ⟨setParam params maxIdKey
      (.int (List.foldl min st.id (rest.map Status.id) - 1)), ?_, ?_⟩
    · apply walkAux_next_call engine limit fuel st rest params s i _ hhit
      rw [hcm0, hmap, hfold, hmin]
    · exact getParam_setParam_self params maxIdKey _

/-- C1 witness: the amended theorem applied to the page [50, 30, 40] with
`limit == 0`; the walk over `c1pages` indeed sends `max_id = 29` on its
second call. -/
theorem c1_cursor_witness :
    (∃ m : Int,
      m ∈ ([⟨50⟩, ⟨30⟩, ⟨40⟩] : List Status).map Status.id ∧
      (∀ x ∈ ([⟨50⟩, ⟨30⟩, ⟨40⟩] : List Status).map Status.id, m ≤ x) ∧
      ∃ p, (walkAux (replayEngine c1pages) 0 1 [⟨50⟩, ⟨30⟩, ⟨40⟩] initParams 1 0).calls.head? =
          some p ∧
        getParam p maxIdKey = some (Value.int (m - 1))) ∧
    getParam (c1run.calls.getD 1 []) maxIdKey = some (Value.int 29) :=
  ⟨c1_cursor_per_page_min (replayEngine c1pages) 0 0 ⟨50⟩ [⟨30⟩, ⟨40⟩] initParams 1 0
      (by decide) (by decide),
    by decide⟩

/-- Top-level form of the limit bound: a walk with `limit > 0` yields at
most `limit` identifiers. -/
theorem ids_from_search_ids_le (engine : Engine σ ε) (limit : Nat)
    (params : Params) (s : σ) (fuel : Nat) (hpos : 0 < limit) :
    (ids_from_search engine limit params s fuel).ids.length ≤ limit := by
  cases he : engine s params with
  | error e => simp [ids_from_search, he]
  | ok pr' =>
      obtain ⟨resp, s'⟩ := pr'
      have hb := walkAux_ids_le engine limit fuel resp.statuses params s' 0 hpos
      simp [ids_from_search, he]
      omega

/-- C2: for every `limit > 0` the walker yields at most `limit`
identifiers; the cutoff is hard, not page-aligned: with `limit == 4` and
pages of sizes [3, 3] it yields exactly 4 identifiers (stopping mid-page
via the in-loop `return`) and performs exactly 2 search calls. -/
theorem c2_hard_cutoff (engine : Engine σ ε) (limit : Nat) (params : Params)
    (s : σ) (fuel : Nat) (hpos : 0 < limit) :
    (ids_from_search engine limit params s fuel).ids.length ≤ limit ∧
    c2run.ids = [100, 98, 95, 94] ∧ c2run.calls.length = 2 ∧
    c2run.outcome = .limitHit :=
  ⟨ids_from_search_ids_le engine limit params s fuel hpos, by decide, by decide, by decide⟩

/-- C2 witness: the bound applied to the pages-[3, 3] walk itself. -/
theorem c2_hard_cutoff_witness :
    (ids_from_search (replayEngine c2pages) 4 initParams 0 10).ids.length ≤ 4 ∧
    c2run.ids = [100, 98, 95, 94] ∧ c2run.calls.length = 2 ∧
    c2run.outcome = .limitHit :=
  c2_hard_cutoff (replayEngine c2pages) 4 initParams 0 10 (by decide)

/-- C3: (i) with `limit > 0`, any fuel budget of at least `limit` search
calls completes the walk (the sequence is finite); (ii) against a replay
stub whose page at call index `k` is empty, fuel `k` suffices (an
eventually-empty source makes the walk finite); (iii) with `limit == 0`
against a stub that never returns an empty page, the walk is still
running whatever the fuel (the sequence may be infinite). -/
theorem c3_termination :
    (∀ (σ ε : Type) (engine : Engine σ ε) (limit : Nat) (params : Params) (s : σ)
        (fuel : Nat), 0 < limit → limit ≤ fuel →
        (ids_from_search engine limit params s fuel).outcome ≠ .fuelOut) ∧
    (∀ (pages : List (List Status)) (limit : Nat) (params : Params) (k fuel : Nat),
        pages.getD k [] = [] → k ≤ fuel →
        (ids_from_search (replayEngine pages) limit params 0 fuel).outcome ≠ .fuelOut) ∧
    (∀ (params : Params) (fuel : Nat),
        (ids_from_search constEngine 0 params () fuel).outcome = .fuelOut) := by
  refine ⟨?_, ?_, ?_⟩
  · intro σ ε engine limit params s fuel hpos hfuel
    cases he : engine s params with
    | error e => simp [ids_from_search, he]
    | ok pr' =>
        obtain ⟨resp, s'⟩ := pr'
        have hb := walkAux_fuelOut_ne engine limit fuel resp.statuses params s' 0 hpos
          (by omega)
        simpa [ids_from_search, he] using hb
  · intro pages limit params k fuel hpg hfuel
    have he : replayEngine pages 0 params = .ok (⟨pages.getD 0 []⟩, 1) := rfl
    cases k with
    | zero =>
        have hb : (walkAux (replayEngine pages) limit fuel (pages.getD 0 [])
            params 1 0).outcome ≠ .fuelOut := by
          rw [hpg, walkAux_nil]
          simp
        simpa [ids_from_search, he] using hb
    | succ k' =>
        have hpg' : pages.getD (1 + k') [] = [] := by
          have harith : 1 + k' = k' + 1 := by omega
          rw [harith]
          exact hpg
        have hb := walkAux_replay_empty pages limit k' fuel (pages.getD 0 [])
          params 1 0 (by omega) hpg'
        simpa [ids_from_search, he] using hb
  · intro params fuel
    have he : constEngine () params = .ok (⟨[⟨1⟩]⟩, ()) := rfl
    have hb := walkAux_const_fuelOut fuel params 0
    simpa [ids_from_search, he] using hb

/-- C3 witness: part (i) applied to the pages-[3, 3] walk with
`limit == 4` and fuel 10, part (ii) applied to the pages-[3, 2, 0] walk
with `limit == 0` and fuel 10, part (iii) applied at fuel 7. -/
theorem c3_termination_witness :
    (ids_from_search (replayEngine c2pages) 4 initParams 0 10).outcome ≠ .fuelOut ∧
    (ids_from_search (replayEngine c4pages) 0 initParams 0 10).outcome ≠ .fuelOut ∧
    (ids_from_search constEngine 0 initParams () 7).outcome = .fuelOut :=
  ⟨c3_termination.1 Nat Unit (replayEngine c2pages) 4 initParams 0 10 (by decide) (by decide),
    c3_termination.2.1 c4pages 0 initParams 2 10 (by decide) (by decide),
    c3_termination.2.2 initParams 7⟩

/-- C5: whenever the running count reaches the limit inside the per-item
loop (in particular exactly at the end of a page), no further search call
is made; with `limit == 3` and a first page of size 3 the walker yields
exactly 3 identifiers and performs exactly 1 search call, although a
second page was available. -/
theorem c5_no_redundant_call (engine : Engine σ ε) (limit fuel : Nat)
    (l : List Status) (params : Params) (s : σ) (i : Nat)
    (hhit : (pageStep limit l i none).hit = true) :
    (walkAux engine limit fuel l params s i).calls = [] ∧
    c5run.ids = [100, 98, 95] ∧ c5run.calls.length = 1 ∧
    c5run.outcome = .limitHit :=
  ⟨walkAux_hit_no_call engine limit fuel l params s i hhit, by decide, by decide, by decide⟩

/-- C5 witness: applied to the first page of the `limit == 3` scenario,
where the limit fires exactly on the page boundary. -/
theorem c5_no_redundant_call_witness :
    (walkAux (replayEngine c2pages) 3 10 [⟨100⟩, ⟨98⟩, ⟨95⟩] initParams 1 0).calls = [] ∧
    c5run.ids = [100, 98, 95] ∧ c5run.calls.length = 1 ∧
    c5run.outcome = .limitHit :=
  c5_no_redundant_call (replayEngine c2pages) 3 10 [⟨100⟩, ⟨98⟩, ⟨95⟩] initParams 1 0
    (by decide)

/-- C6: a response with zero result items is terminal: a walk whose first
call returns it yields no identifiers and makes exactly that one call;
and in general the outer loop entered on an empty page stops at once,
yielding nothing and calling nothing. -/
theorem c6_empty_terminal (engine : Engine σ ε) (limit : Nat) (params : Params)
    (s s' : σ) (fuel : Nat) (resp : Response)
    (hresp : engine s params = .ok (resp, s')) (hempty : resp.statuses = []) :
    (ids_from_search engine limit params s fuel).ids = [] ∧
    (ids_from_search engine limit params s fuel).calls = [params] ∧
    (ids_from_search engine limit params s fuel).outcome = .emptyPage ∧
    (∀ (fuel' : Nat) (params' : Params) (s₀ : σ) (j : Nat),
        walkAux engine limit fuel' [] params' s₀ j = ⟨[], [], .emptyPage, params', s₀⟩) := by
  refine ⟨?_, ?_, ?_, fun fuel' params' s₀ j => walkAux_nil engine limit fuel' params' s₀ j⟩
    <;> simp [ids_from_search, hresp, hempty, walkAux_nil]

/-- C6 witness: the replay stub with no pages returns an empty first
response; the walk yields nothing and stops after that single call. -/
theorem c6_empty_terminal_witness :
    (ids_from_search (replayEngine []) 7 initParams 0 5).ids = [] ∧
    (ids_from_search (replayEngine []) 7 initParams 0 5).calls = [initParams] ∧
    (ids_from_search (replayEngine []) 7 initParams 0 5).outcome = .emptyPage ∧
    (∀ (fuel' : Nat) (params' : Params) (s₀ : Nat) (j : Nat),
        walkAux (replayEngine []) 7 fuel' [] params' s₀ j =
          ⟨[], [], .emptyPage, params', s₀⟩) :=
  c6_empty_terminal (replayEngine []) 7 initParams 0 1 5 ⟨[]⟩ rfl rfl

/-- C7: a failure of the injected search capability propagates unmodified
(the very error value appears in the outcome, with no retry: the failing
call is the last call made), and the walker's parameter mapping at that
moment is exactly the mapping used for the failed call — on the first
call the untouched caller mapping, on a later call the mapping whose
cursor was set for the page that was never received. -/
theorem c7_error_propagation (engine : Engine σ ε) (limit fuel : Nat)
    (params : Params) (s : σ) (e : ε) :
    (engine s params = .error e →
      ids_from_search engine limit params s fuel =
        ⟨[], [params], .failed e, params, s⟩) ∧
    (∀ (st : Status) (rest : List Status) (i : Nat) (m : Int),
        (pageStep limit (st :: rest) i none).hit = false →
        (pageStep limit (st :: rest) i none).cm = some m →
        engine s (setParam params maxIdKey (.int (m - 1))) = .error e →
        walkAux engine limit (fuel + 1) (st :: rest) params s i =
          ⟨(pageStep limit (st :: rest) i none).yielded,
            [setParam params maxIdKey (.int (m - 1))], .failed e,
            setParam params maxIdKey (.int (m - 1)), s⟩) := by
  constructor
  · intro he
    simp [ids_from_search, he]
  · intro st rest i m hhit hcm he
    exact walkAux_err engine limit fuel st rest params s i m e hhit hcm he

/-- C7 witness: the always-failing stub; the walk records the failing
call's own parameter mapping and surfaces the error verbatim. -/
theorem c7_error_propagation_witness :
    ids_from_search failEngine 5 initParams () 3 =
      ⟨[], [initParams], .failed "rate limited", initParams, ()⟩ :=
  (c7_error_propagation failEngine 5 3 initParams () "rate limited").1 rfl

/-- C8: the walker updates only the `max_id` key: on every search call of
a walk, and in the final mapping, every other key holds the caller's
initial value. -/
theorem c8_frame (engine : Engine σ ε) (limit : Nat) (params : Params)
    (s : σ) (fuel : Nat) (key : String) (hk : key ≠ maxIdKey) :
    (∀ p ∈ (ids_from_search engine limit params s fuel).calls,
        getParam p key = getParam params key) ∧
    getParam (ids_from_search engine limit params s fuel).finalParams key =
      getParam params key := by
  cases he : engine s params with
  | error e => simp [ids_from_search, he]
  | ok pr' =>
      obtain ⟨resp, s'⟩ := pr'
      have hrec := walkAux_frame engine limit key hk fuel resp.statuses params s' 0
      constructor
      · intro p hp
        simp [ids_from_search, he] at hp
        rcases hp with hp | hp
        · rw [hp]
        · exact hrec.1 p hp
      · simpa [ids_from_search, he] using hrec.2

/-- C8 witness: in the pages-[3, 2, 0] walk, the caller's `q` key is
untouched on every call and in the final mapping. -/
theorem c8_frame_witness :
    (∀ p ∈ (ids_from_search (replayEngine c4pages) 0 initParams 0 10).calls,
        getParam p "q" = getParam initParams "q") ∧
    getParam (ids_from_search (replayEngine c4pages) 0 initParams 0 10).finalParams "q" =
      getParam initParams "q" :=
  c8_frame (replayEngine c4pages) 0 initParams 0 10 "q" (by decide)

/-- C10: the walker is deterministic with no hidden state: two walks
driven by stub capabilities that serve the same response schedule
(pointwise-equal pages per call index), with the same limit and the same
initial parameter mapping, produce identical results — identifiers,
calls, outcome and all. -/
theorem c10_deterministic_replay (R1 R2 : Nat → List Status) (limit fuel : Nat)
    (params : Params) (h : ∀ k, R1 k = R2 k) :
    ids_from_search (stubEngine R1) limit params 0 fuel =
      ids_from_search (stubEngine R2) limit params 0 fuel := by
  have hcong := walkAux_congr (stubEngine R1) (stubEngine R2) limit
    (fun s p => by simp [stubEngine, h s])
  simp only [ids_from_search, stubEngine]
  rw [h 0]
  simp only [hcong]

/-- C10 witness: two syntactically different schedules serving the same
single page produce the same walk. -/
theorem c10_deterministic_replay_witness :
    ids_from_search (stubEngine stubR1) 0 initParams 0 3 =
      ids_from_search (stubEngine stubR2) 0 initParams 0 3 :=
  c10_deterministic_replay stubR1 stubR2 0 3 initParams
    (fun k => by cases k <;> simp [stubR1, stubR2])
